import Mathlib

/-
Verification of the cuboid software rasterizer (src/geometry.rs, src/render.rs,
src/linalg.rs) against its natural-language specification.

Embedding conventions:

* Rust `i32` values are modelled as `ℤ`.  Where a claim is specifically about
  32-bit overflow, a separate wrap-around model (`wrap32`, `Line.intersect32`)
  is used; it is the faithful release-mode semantics (debug mode panics at the
  same inputs, so any divergence from the exact value refutes exactness either
  way).  `i32` division truncates towards zero, which is `Int.tdiv`.
* Rust `f64`/`f32` values are modelled as exact rationals `ℚ` wherever the code
  performs only field operations and order comparisons, and as real numbers `ℝ`
  where transcendental functions (`atan2`, `tan`, `acos`, `sqrt`) appear.
  `f32::INFINITY` (the initial depth-buffer content) is modelled as the `none`
  case of `Option`.
* Rust panics (`panic!`, `unwrap`, `expect`, `unreachable!`, integer division
  by zero) are modelled as the `none` case of `Option`-valued functions.
* Stateful code (the depth buffer) is modelled by explicit state passing.
-/

namespace Cuboid

/-! ## 2D integer geometry (src/geometry.rs) -/

/-- Source `BasicPoint<i32>` from src/geometry.rs: a pixel-space 2D point. -/
structure Point where
  x : ℤ
  y : ℤ
deriving DecidableEq, Repr

/-- Source `Line` from src/geometry.rs: integer coefficients of `a*x + b*y + c = 0`. -/
structure Line where
  a : ℤ
  b : ℤ
  c : ℤ
deriving DecidableEq, Repr

/-- Source `Line::from_points`.  The source panics when `p == q`; the panic is the
`none` case. -/
def Line.from_points (p q : Point) : Option Line :=
  if p = q then none
  else if p.x = q.x then some ⟨1, 0, -p.x⟩
  else some ⟨p.y - q.y, q.x - p.x, p.x * q.y - p.y * q.x⟩

/-- Source `Line::horizontal`. -/
def Line.horizontal (y : ℤ) : Line := ⟨0, 1, -y⟩

/-- Source `Line::intersect`, idealized to unbounded integers (`i32` division by zero,
which panics in Rust, is the `none` case; division truncates towards zero). -/
def Line.intersect (l m : Line) : Option Point :=
  let x_numerator := l.c * m.b - l.b * m.c
  let y_numerator := l.a * m.c - l.c * m.a
  let denominator := l.b * m.a - l.a * m.b
  if denominator = 0 then none
  else some ⟨Int.tdiv x_numerator denominator, Int.tdiv y_numerator denominator⟩

/-- Source `Line::contains_point`. -/
def Line.contains_point (l : Line) (p : Point) : Bool :=
  l.a * p.x + l.b * p.y + l.c = 0

/-- Wrap an unbounded integer into the `i32` range, the release-mode semantics
of `i32` overflow. -/
def wrap32 (n : ℤ) : ℤ := (n + 2 ^ 31) % 2 ^ 32 - 2 ^ 31

/-- Source `i32` multiplication (release mode wrap-around). -/
def mul32 (a b : ℤ) : ℤ := wrap32 (a * b)

/-- Source `i32` subtraction (release mode wrap-around). -/
def sub32 (a b : ℤ) : ℤ := wrap32 (a - b)

/-- Source `Line::intersect` with faithful 32-bit arithmetic: every product and
difference is reduced into the `i32` range, divisions truncate towards zero,
and division by zero (a Rust panic) is the `none` case. -/
def Line.intersect32 (l m : Line) : Option Point :=
  let x_numerator := sub32 (mul32 l.c m.b) (mul32 l.b m.c)
  let y_numerator := sub32 (mul32 l.a m.c) (mul32 l.c m.a)
  let denominator := sub32 (mul32 l.b m.a) (mul32 l.a m.b)
  if denominator = 0 then none
  else some ⟨wrap32 (Int.tdiv x_numerator denominator),
             wrap32 (Int.tdiv y_numerator denominator)⟩

/-- Source `impl PartialEq for Line` from src/geometry.rs: cross-multiplication after
dividing by the gcd of the two `a` coefficients.  When both `a` coefficients
are zero the gcd is zero and the Rust code divides by zero, a panic: the
`none` case. -/
def Line.eq (l m : Line) : Option Bool :=
  let ga : ℤ := Int.gcd l.a m.a
  if ga = 0 then none
  else
    let p := Int.tdiv l.a ga
    let q := Int.tdiv m.a ga
    some (decide (l.a * q = m.a * p ∧ l.b * q = m.b * p ∧ l.c * q = m.c * p))

/-- The expression of spec §8's property: build the two lines through `p`, `q`
in both orders and compare them with the `PartialEq` implementation
(`none` = some step panicked). -/
def from_points_swap_check (p q : Point) : Option Bool := do
  let l1 ← Line.from_points p q
  let l2 ← Line.from_points q p
  Line.eq l1 l2

/-! ## 2D triangles and the scanline rasterizer (src/geometry.rs, src/render.rs) -/

/-- Source `impl LiesOn for Point`: does `s` lie on the line through `a` and `b`?
The source builds `Line::from_points(a, b)`, which panics when `a = b`; that
case (guarded out by `try_new`'s equality checks) is modelled as `false`. -/
def Point.lies_on (s a b : Point) : Bool :=
  match Line.from_points a b with
  | some l => l.contains_point s
  | none => false

/-- Source `BasicTriangle<Point>` (`Triangle`), without the construction invariant,
which is carried separately as `Triangle.try_new` / `Triangle.valid`. -/
structure Triangle where
  a : Point
  b : Point
  c : Point
deriving DecidableEq, Repr

/-- Source `BasicTriangle::try_new` at `Point`: `none` for coinciding vertices or a
vertex lying on the line through the other two. -/
def Triangle.try_new (a b c : Point) : Option Triangle :=
  if a = b ∨ b = c ∨ a = c then none
  else if a.lies_on b c ∨ b.lies_on a c ∨ c.lies_on a b then none
  else some ⟨a, b, c⟩

/-- The invariant `Triangle::try_new` enforces. -/
def Triangle.valid (t : Triangle) : Prop :=
  Triangle.try_new t.a t.b t.c = some t

instance (t : Triangle) : Decidable t.valid :=
  inferInstanceAs (Decidable (Triangle.try_new t.a t.b t.c = some t))

/-- Source `Triangular::sort_points`: the three-swap sorting network of the source,
swap by swap. -/
def sort3 (key : Point → ℤ) (a b c : Point) : Point × Point × Point :=
  let p1 := if key a > key b then (b, a) else (a, b)
  let a1 := p1.1
  let b1 := p1.2
  let p2 := if key b1 > key c then (c, b1) else (b1, c)
  let b2 := p2.1
  let c2 := p2.2
  let p3 := if key a1 > key b2 then (b2, a1) else (a1, b2)
  (p3.1, p3.2, c2)

/-- Source `Triangular::ysort`. -/
def Triangle.ysort (t : Triangle) : Point × Point × Point :=
  sort3 (fun p => p.y) t.a t.b t.c

/-- Source `HorizontalSegment`: a left endpoint plus a non-negative width. -/
structure HorizontalSegment where
  left : Point
  width : ℕ
deriving DecidableEq, Repr

/-- Source `HorizontalSegment::from_points`: asserts equal `y` coordinates (panic =
`none`) and swaps the endpoints into order. -/
def HorizontalSegment.from_points (p q : Point) : Option HorizontalSegment :=
  if p.y = q.y then
    if p.x > q.x then some ⟨q, (p.x - q.x).toNat⟩ else some ⟨p, (q.x - p.x).toNat⟩
  else none

/-- Source `HorizontalSegment::right`. -/
def HorizontalSegment.right (s : HorizontalSegment) : Point :=
  ⟨s.left.x + s.width, s.left.y⟩

/-- Source `HorizontalSegment::y`. -/
def HorizontalSegment.y (s : HorizontalSegment) : ℤ := s.left.y

/-- Source `HorizontalSegment::as_line`. -/
def HorizontalSegment.as_line (s : HorizontalSegment) : Line :=
  Line.horizontal s.y

/-- Source `GluedTriangle`. -/
structure GluedTriangle where
  horizontal_segment : HorizontalSegment
  free_point : Point
deriving DecidableEq, Repr

/-- Source `GluedTriangle::try_new`: `none` when the free point lies on the line of
the horizontal segment. -/
def GluedTriangle.try_new (hs : HorizontalSegment) (fp : Point) : Option GluedTriangle :=
  if hs.as_line.contains_point fp then none else some ⟨hs, fp⟩

/-- The inclusive integer range `a..=b` as a list (empty when `b < a`). -/
def intRange (a b : ℤ) : List ℤ :=
  (List.range (b + 1 - a).toNat).map (fun i : ℕ => a + (i : ℤ))

/-- One scanline row of `Rasterizer::fill_glued_triangle`: intersect the row
with the two slanted edges and emit every pixel of the clamped inclusive `x`
range (`none` = a panic inside `Line::intersect`). -/
def rasterize_row (width : ℕ) (left_line right_line : Line) (y : ℤ) :
    Option (List Point) := do
  let left_isect ← (Line.horizontal y).intersect left_line
  let right_isect ← (Line.horizontal y).intersect right_line
  pure ((intRange (max left_isect.x 0) (min right_isect.x ((width : ℤ) - 1))).map
    (fun x => ⟨x, y⟩))

/-- The row loop of `Rasterizer::fill_glued_triangle`. -/
def rasterize_rows (width : ℕ) (left_line right_line : Line) :
    List ℤ → Option (List Point)
  | [] => some []
  | y :: ys => do
    let row ← rasterize_row width left_line right_line y
    let rest ← rasterize_rows width left_line right_line ys
    pure (row ++ rest)

/-- Source `Rasterizer::fill_glued_triangle`, as the list of the pixel coordinates
passed to the per-pixel callback and to `Rasterizer::set` (`none` = a panic). -/
def Rasterizer.fill_glued_triangle (width height : ℕ) (g : GluedTriangle) :
    Option (List Point) := do
  let mn := g.horizontal_segment.y
  let mx := g.free_point.y
  let lo := if mn > mx then mx else mn
  let hi := if mn > mx then mn else mx
  let left_line ← Line.from_points g.horizontal_segment.left g.free_point
  let right_line ← Line.from_points g.horizontal_segment.right g.free_point
  rasterize_rows width left_line right_line
    (intRange (max lo 0) (min hi ((height : ℤ) - 1)))

/-- One `if let Some(glued) = GluedTriangle::try_new(..)` arm of
`Rasterizer::fill_triangle`: a degenerate half is skipped (no pixels). -/
def fill_half (width height : ℕ) (hs : HorizontalSegment) (apex : Point) :
    Option (List Point) :=
  match GluedTriangle.try_new hs apex with
  | some glued => Rasterizer.fill_glued_triangle width height glued
  | none => some []

/-- The body of `Rasterizer::fill_triangle` after the `ysort`: split at the
middle vertex's scanline and fill the two glued halves. -/
def fill_sorted (width height : ℕ) (a b c : Point) : Option (List Point) := do
  let line_ac ← Line.from_points a c
  let split_point ← (Line.horizontal b.y).intersect line_ac
  let hs ← HorizontalSegment.from_points b split_point
  let top ← fill_half width height hs a
  let bottom ← fill_half width height hs c
  pure (top ++ bottom)

/-- Source `Rasterizer::fill_triangle`, as the list of the pixel coordinates passed
to the per-pixel callback (`none` = a panic). -/
def Rasterizer.fill_triangle (width height : ℕ) (t : Triangle) :
    Option (List Point) :=
  let s := t.ysort
  fill_sorted width height s.1 s.2.1 s.2.2

/-- Is `p` inside the `width × height` pixel buffer? -/
def in_bounds (width height : ℕ) (p : Point) : Bool :=
  0 ≤ p.x ∧ p.x < (width : ℤ) ∧ 0 ≤ p.y ∧ p.y < (height : ℤ)

/-- Does a rasterizer run terminate without a panic with every visited pixel
inside the buffer? -/
def all_in_bounds (width height : ℕ) : Option (List Point) → Bool
  | none => false
  | some pix => pix.all (in_bounds width height)

/-- The 2D orientation cross product: zero exactly on collinear triples.
Proof-side helper used to reason about `lies_on` and `ysort`. -/
def cross (p q r : Point) : ℤ :=
  (q.x - p.x) * (r.y - p.y) - (r.x - p.x) * (q.y - p.y)

/-! ## 3D geometry over exact rationals (src/geometry.rs) -/

/-- Source `BasicPoint3d<f64>` (`Point3d`), with `f64` idealized as `ℚ`. -/
structure Point3 where
  x : ℚ
  y : ℚ
  z : ℚ
deriving DecidableEq, Repr

/-- Source `BasicVector3d<f64>` (`Vector3d`). -/
structure Vec3 where
  x : ℚ
  y : ℚ
  z : ℚ
deriving DecidableEq, Repr

/-- Source `Point3d - Point3d` (the `Sub` impl). -/
def Point3.sub (p q : Point3) : Vec3 :=
  ⟨p.x - q.x, p.y - q.y, p.z - q.z⟩

/-- Source `Point3d + Vector3d` (the `Add` impl). -/
def Point3.add_vec (p : Point3) (v : Vec3) : Point3 :=
  ⟨p.x + v.x, p.y + v.y, p.z + v.z⟩

/-- Source `BasicPoint3d::as_vector`. -/
def Point3.as_vector (p : Point3) : Vec3 := ⟨p.x, p.y, p.z⟩

/-- Source `BasicVector3d::as_point`. -/
def Vec3.as_point (v : Vec3) : Point3 := ⟨v.x, v.y, v.z⟩

/-- Source `Vector3d - Vector3d`. -/
def Vec3.sub (u v : Vec3) : Vec3 :=
  ⟨u.x - v.x, u.y - v.y, u.z - v.z⟩

/-- Source `Vector3d * f64` (scalar multiplication). -/
def Vec3.mul (v : Vec3) (scalar : ℚ) : Vec3 :=
  ⟨v.x * scalar, v.y * scalar, v.z * scalar⟩

/-- Source `Dot for BasicVector3d`. -/
def Vec3.dot (u v : Vec3) : ℚ :=
  u.x * v.x + u.y * v.y + u.z * v.z

/-- Source `Norm::norm_sq for BasicVector3d<f64>`. -/
def Vec3.norm_sq (v : Vec3) : ℚ :=
  v.x ^ 2 + v.y ^ 2 + v.z ^ 2

/-- Source `Vector3d::approx`: squared distance below `1e-10`. -/
def Vec3.approx (u v : Vec3) : Bool :=
  (u.sub v).norm_sq < 1 / 10 ^ 10

/-- Source `Vector3d::onto_xy` (a 2D projection; components kept as a pair). -/
def Vec3.onto_xy (v : Vec3) : ℚ × ℚ := (v.x, v.y)

/-- Source `BasicTriangle<Point3d>` (`Triangle3d`), without the construction
invariant. -/
structure Triangle3 where
  a : Point3
  b : Point3
  c : Point3
deriving DecidableEq, Repr

/-- Source `Triangular3d::sort_points`: the same three-swap network at `Point3d`. -/
def sort3d (key : Point3 → ℚ) (a b c : Point3) : Point3 × Point3 × Point3 :=
  let p1 := if key a > key b then (b, a) else (a, b)
  let a1 := p1.1
  let b1 := p1.2
  let p2 := if key b1 > key c then (c, b1) else (b1, c)
  let b2 := p2.1
  let c2 := p2.2
  let p3 := if key a1 > key b2 then (b2, a1) else (a1, b2)
  (p3.1, p3.2, c2)

/-- Source `Triangular3d::xsort`. -/
def Triangle3.xsort (t : Triangle3) : Point3 × Point3 × Point3 :=
  sort3d (fun p => p.x) t.a t.b t.c

/-! ## The camera's frustum clipper (src/render.rs) -/

/-- Source `SegmentTranslatability`. -/
inductive SegmentTranslatability where
  | translatable
  | semi_translatable (p : Point3)
  | non_translatable
deriving DecidableEq, Repr

/-- Source `Camera::can_translate_point`: the conservative in-front test
`adjusted_point.x > 1e-3`.  (It reads no camera state.) -/
def can_translate_point (adjusted_point : Point3) : Bool :=
  adjusted_point.x > 1 / 1000

/-- Source `Camera::can_translate_segment` on the segment's two endpoints: in the
straddling case the returned point is the intersection of the segment with the
plane `x = 0` (its `x` component is the literal `0.0`). -/
def can_translate_segment (a b : Point3) : SegmentTranslatability :=
  match can_translate_point a, can_translate_point b with
  | true, true => .translatable
  | false, false => .non_translatable
  | _, _ =>
    let x : ℚ := 0
    let y := (a.x * b.y - a.y * b.x) / (a.x - b.x)
    let z := (a.x * b.z - a.z * b.x) / (a.x - b.x)
    .semi_translatable ⟨x, y, z⟩

/-- Source `Renderer::split_if_necessary`.  The outer `none` models a panic: either a
`Segment::from_points` on coinciding sorted vertices, or one of the source's
`unreachable!()` arms.  `Triangle3d::new` on the split pieces is modelled as
plain construction; the source additionally re-validates the pieces with a
float-tolerance collinearity check and panics on failure, which changes
neither the branch taken nor which vertices are emitted. -/
def split_if_necessary (triangle : Triangle3) :
    Option (Option Triangle3 × Option Triangle3) :=
  let s := triangle.xsort
  let a := s.1
  let b := s.2.1
  let c := s.2.2
  if a = c ∨ a = b ∨ b = c then none
  else
    match can_translate_segment b c with
    | .translatable => some (some triangle, none)
    | .semi_translatable isect_bc =>
      match can_translate_segment a c with
      | .semi_translatable isect_ac =>
        some (some ⟨a, isect_ac, isect_bc⟩, some ⟨a, b, isect_bc⟩)
      | _ => none
    | .non_translatable =>
      match can_translate_segment a b, can_translate_segment a c with
      | .semi_translatable isect_ab, .semi_translatable isect_ac =>
        some (some ⟨a, isect_ab, isect_ac⟩, none)
      | .non_translatable, .non_translatable => some (none, none)
      | _, _ => none

/-! ## DepthBuffer (src/render.rs) -/

/-- Source `DepthBuffer`: a `width × height` grid of depths.  A cell is `Option α`:
`none` is `f32::INFINITY` (the initial fill of `DepthBuffer::new`), `some v` a
stored finite depth.  The depth type is a parameter: `ℚ` idealizes finite
`f32` values; `ℝ` is used where depths come from square roots. -/
structure DepthBuffer (α : Type) where
  depth_buffer : List (Option α)
  width : ℕ
  height : ℕ

/-- Source `DepthBuffer::new`: every cell starts at `+∞`. -/
def DepthBuffer.new (α : Type) (width height : ℕ) : DepthBuffer α :=
  ⟨List.replicate (width * height) none, width, height⟩

/-- Source `DepthBuffer::index_at`. -/
def DepthBuffer.index_at {α : Type} (db : DepthBuffer α) (x y : ℕ) : ℕ :=
  y * db.width + x

/-- Source `DepthBuffer::index_at_checked`. -/
def DepthBuffer.index_at_checked {α : Type} (db : DepthBuffer α) (x y : ℕ) :
    Option ℕ :=
  if x < db.width ∧ y < db.height then some (db.index_at x y) else none

/-- The stored content at `(x, y)` (reads past the backing vector as `+∞`;
with the length invariant `DepthBuffer.wf` every checked index is inside). -/
def DepthBuffer.cell {α : Type} (db : DepthBuffer α) (x y : ℕ) : Option α :=
  db.depth_buffer.getD (db.index_at x y) none

/-- The backing vector has exactly `width * height` cells, as built by
`DepthBuffer::new`. -/
def DepthBuffer.wf {α : Type} (db : DepthBuffer α) : Prop :=
  db.depth_buffer.length = db.width * db.height

/-- Source `value < stored` on `f32`, where `stored` may be `+∞`. -/
def lt_inf {α : Type} [LT α] [DecidableRel ((· < ·) : α → α → Prop)]
    (v : α) : Option α → Bool
  | none => true
  | some w => decide (v < w)

/-- Source `DepthBuffer::try_update`, state-passing: the boolean is the source's
return value, the buffer the new state. -/
def DepthBuffer.try_update {α : Type} [LT α]
    [DecidableRel ((· < ·) : α → α → Prop)]
    (db : DepthBuffer α) (x y : ℕ) (value : α) : Bool × DepthBuffer α :=
  match db.index_at_checked x y with
  | some index =>
    if lt_inf value (db.depth_buffer.getD index none)
    then (true, ⟨db.depth_buffer.set index (some value), db.width, db.height⟩)
    else (false, db)
  | none => (false, db)

/-- Source `DepthBuffer::try_coords_from_point`. -/
def DepthBuffer.try_coords_from_point {α : Type} (db : DepthBuffer α)
    (point : Point) : Option (ℕ × ℕ) :=
  if point.x < 0 ∨ point.y < 0 ∨
      (db.index_at_checked point.x.toNat point.y.toNat).isNone
  then none
  else some (point.x.toNat, point.y.toNat)

/-- A sequence of `try_update` calls at one coordinate, returning every call's
result. -/
def DepthBuffer.run_updates {α : Type} [LT α]
    [DecidableRel ((· < ·) : α → α → Prop)]
    (db : DepthBuffer α) (x y : ℕ) : List α → List Bool
  | [] => []
  | v :: vs =>
    let r := db.try_update x y v
    r.1 :: r.2.run_updates x y vs

/-! ## `Angle` (src/geometry.rs), `f64` idealized as `ℚ` -/

/-- Source `Angle`: a plain radians wrapper. -/
structure Angle where
  radians : ℚ
deriving DecidableEq, Repr

/-- Source `Angle::from_radians`: stores the value as given. -/
def Angle.from_radians (radians : ℚ) : Angle := ⟨radians⟩

/-- Source `Angle::as_radians`. -/
def Angle.as_radians (a : Angle) : ℚ := a.radians

/-- Source `Angle::zero`. -/
def Angle.zero : Angle := ⟨0⟩

/-- Source `Neg for Angle`. -/
def Angle.neg (a : Angle) : Angle := ⟨-a.radians⟩

/-- Source `Add for Angle`. -/
def Angle.add (a b : Angle) : Angle := ⟨a.radians + b.radians⟩

/-- Source `Sub for Angle`. -/
def Angle.sub (a b : Angle) : Angle := ⟨a.radians - b.radians⟩

/-- Source `Mul<f64> for Angle`. -/
def Angle.mul (a : Angle) (scalar : ℚ) : Angle := ⟨a.radians * scalar⟩

/-- Source `Div<f64> for Angle`. -/
def Angle.div_scalar (a : Angle) (scalar : ℚ) : Angle := ⟨a.radians / scalar⟩

/-- Source `Div for Angle` (ratio of two angles). -/
def Angle.div (a b : Angle) : ℚ := a.radians / b.radians

/-! ## The camera projection (src/render.rs), over ℝ -/

/-- A 3D point with real coordinates, for the parts of the camera that use
transcendental `f64` functions. -/
structure Point3R where
  x : ℝ
  y : ℝ
  z : ℝ

/-- Source `Norm::norm for BasicVector3d<f64>`: the Euclidean norm (`norm_sq`
followed by `sqrt`). -/
noncomputable def norm3R (p : Point3R) : ℝ :=
  Real.sqrt (p.x ^ 2 + p.y ^ 2 + p.z ^ 2)

/-- Source `f64::atan2`: the standard two-argument arctangent. -/
noncomputable def atan2 (y x : ℝ) : ℝ :=
  if 0 < x then Real.arctan (y / x)
  else if x < 0 then
    (if 0 ≤ y then Real.arctan (y / x) + Real.pi else Real.arctan (y / x) - Real.pi)
  else
    (if 0 < y then Real.pi / 2 else if y < 0 then -(Real.pi / 2) else 0)

/-- Source `Azimuth for Vector3d`: `atan2` over the horizontal plane `(x, z)`. -/
noncomputable def azimuthR (p : Point3R) : ℝ := atan2 p.z p.x

/-- Source `f64::signum` on the reals (`signum(+0.0) = 1.0`, the value the code
meets). -/
noncomputable def signumR (y : ℝ) : ℝ := if y < 0 then -1 else 1

/-- Source `Vangle for Vector3d`: the `acos`-based `angle_with` between the vector
and its horizontal (`xz`) projection, signed by the vertical component. -/
noncomputable def vangleR (p : Point3R) : ℝ :=
  Real.arccos ((p.x ^ 2 + p.z ^ 2) /
      (Real.sqrt (p.x ^ 2 + p.y ^ 2 + p.z ^ 2) * Real.sqrt (p.x ^ 2 + 0 ^ 2 + p.z ^ 2)))
    * signumR p.y

/-- The FOV-derived constants of `Camera` (`hfov_half_cot_half`,
`vfov_half_cot_half`) as real parameters; `Camera::new` fills them with
`0.5 * cot(fov/2)` for its fixed FOVs.  `Camera::translate` reads no other
camera state. -/
structure CameraR where
  hfov_half_cot_half : ℝ
  vfov_half_cot_half : ℝ

/-- The screen coordinate `Camera::translate` computes for a point in front
of the camera: `tan(angle) * (cot(fov/2)/2) + 0.5` per axis. -/
noncomputable def CameraR.screen_coord (cam : CameraR) (p : Point3R) : ℝ × ℝ :=
  (Real.tan (azimuthR p) * cam.hfov_half_cot_half + 0.5,
   Real.tan (vangleR p) * cam.vfov_half_cot_half + 0.5)

/-- Source `Camera::translate`: the explicit sanity check panics (= `none`) iff
`adjusted_point.x ≤ 0`; otherwise the angular screen coordinate and the
vector norm are returned (every operation on that path is total). -/
noncomputable def CameraR.translate (cam : CameraR) (adjusted_point : Point3R) :
    Option ((ℝ × ℝ) × ℝ) :=
  if adjusted_point.x ≤ 0 then none
  else some (cam.screen_coord adjusted_point, norm3R adjusted_point)

/-! ## Coordinate recovery (src/render.rs, src/linalg.rs), over ℚ -/

/-- Source `RGB` (src/render.rs). -/
structure RGB where
  r : ℕ
  g : ℕ
  b : ℕ
deriving DecidableEq, Repr

/-- Source `BasicVector<i32>`: the difference of two pixel points. -/
structure Vec2 where
  x : ℤ
  y : ℤ
deriving DecidableEq, Repr

/-- Source `Point - Point`. -/
def Point.subp (p q : Point) : Vec2 := ⟨p.x - q.x, p.y - q.y⟩

/-- Source `BasicVector::perp`. -/
def Vec2.perp (v : Vec2) : Vec2 := ⟨-v.y, v.x⟩

/-- The `Into<(i32,i32)> → Point::from` round trip applied to a vector. -/
def Vec2.as_point (v : Vec2) : Point := ⟨v.x, v.y⟩

/-- Source `Viewport`. -/
structure Viewport where
  width : ℕ
  height : ℕ
deriving DecidableEq, Repr

/-- Source `Viewport::untranslate`: pixel → normalized screen-agnostic coordinates. -/
def Viewport.untranslate (vp : Viewport) (point_on_screen : Point) : ℚ × ℚ :=
  ((point_on_screen.x : ℚ) / ((vp.width : ℚ) - 1),
   (point_on_screen.y : ℚ) / ((vp.height : ℚ) - 1))

/-- The camera constant `hfov_half_cot_half` as an exact rational parameter —
all that `Camera::onto_screen_plane` reads. -/
structure CameraQ where
  hfov_half_cot_half : ℚ
deriving DecidableEq, Repr

/-- Source `Camera::onto_screen_plane`. -/
def CameraQ.onto_screen_plane (cam : CameraQ) (viewport_agnostic_point : ℚ × ℚ) :
    Point3 :=
  ⟨cam.hfov_half_cot_half,
   1 / 2 - viewport_agnostic_point.2,
   viewport_agnostic_point.1 - 1 / 2⟩

/-- The 3D cross product, helper for the idealized collinearity test. -/
def Vec3.cross (u v : Vec3) : Vec3 :=
  ⟨u.y * v.z - u.z * v.y, u.z * v.x - u.x * v.z, u.x * v.y - u.y * v.x⟩

/-- Source `LiesOn for Point3d`, idealized: the source tests
`angle_with(a - self, b - self) < 1e-10` through float `acos`; its exact
(`ε → 0`) meaning is that the two difference vectors are nonzero, parallel
and pointing the same way. -/
def Point3.lies_on (s a b : Point3) : Bool :=
  (a.sub s).cross (b.sub s) = (⟨0, 0, 0⟩ : Vec3) ∧ 0 < (a.sub s).dot (b.sub s)

/-- Source `BasicTriangle::try_new` at `Point3d`. -/
def Triangle3.try_new (a b c : Point3) : Option Triangle3 :=
  if a = b ∨ b = c ∨ a = c then none
  else if a.lies_on b c ∨ b.lies_on a c ∨ c.lies_on a b then none
  else some ⟨a, b, c⟩

/-- Source `Line3d`. -/
structure Line3 where
  origin : Point3
  direction : Vec3
deriving DecidableEq, Repr

/-- Source `Line3d::from_points`: panics (= `none`) on approximately coinciding
points; the direction is `b - a`. -/
def Line3.from_points (a b : Point3) : Option Line3 :=
  if (a.sub b).approx ⟨0, 0, 0⟩ then none
  else some ⟨a, b.sub a⟩

/-- Source `Plane` (coefficients of `ax + by + cz + d = 0`). -/
structure Plane where
  a : ℚ
  b : ℚ
  c : ℚ
  d : ℚ
deriving DecidableEq, Repr

/-- Source `From<Triangle3d> for Plane`: the cofactor formulas of the source. -/
def Plane.from_triangle (tri : Triangle3) : Plane :=
  let p1 := tri.a
  let p2 := tri.b
  let p3 := tri.c
  let d := p3.x * p2.y * p1.z + p1.x * p3.y * p2.z + p2.x * p1.y * p3.z
         - p2.x * p3.y * p1.z - p3.x * p1.y * p2.z - p1.x * p2.y * p3.z
  let a := (p2.y - p3.y) * p1.z - (p1.y - p3.y) * p2.z + (p1.y - p2.y) * p3.z
  let b := (p2.z - p3.z) * p1.x - (p1.z - p3.z) * p2.x + (p1.z - p2.z) * p3.x
  let c := (p2.x - p3.x) * p1.y - (p1.x - p3.x) * p2.y + (p1.x - p2.x) * p3.y
  ⟨a, b, c, d⟩

/-- Source `Plane::try_from_origin_and_vectors` (the panicking
`from_origin_and_vectors` wrapper is the `none` case). -/
def Plane.try_from_origin_and_vectors (origin : Point3) (vec1 vec2 : Vec3) :
    Option Plane :=
  (Triangle3.try_new origin (origin.add_vec vec1) (origin.add_vec vec2)).map
    Plane.from_triangle

/-- Source `CollinearWith<Vector3d> for Plane`: `|a·vx + b·vy + c·vz| < 1e-12`. -/
def Plane.collinear_with (pl : Plane) (v : Vec3) : Bool :=
  |pl.a * v.x + pl.b * v.y + pl.c * v.z| < 1 / 10 ^ 12

/-- Source `Plane::intersect` with a 3D line. -/
def Plane.intersect (pl : Plane) (line : Line3) : Option Point3 :=
  if pl.collinear_with line.direction then none
  else
    let o := line.origin
    let v := line.direction
    let k := -(pl.a * o.x + pl.b * o.y + pl.c * o.z + pl.d)
               / (pl.a * v.x + pl.b * v.y + pl.c * v.z)
    some (o.add_vec (v.mul k))

/-- Source `Matrix2d` (src/linalg.rs) over ℚ. -/
structure Matrix2d where
  x00 : ℚ
  x01 : ℚ
  x10 : ℚ
  x11 : ℚ
deriving DecidableEq, Repr

/-- Source `Matrix2d::from_columns`. -/
def Matrix2d.from_columns (col0 col1 : ℚ × ℚ) : Matrix2d :=
  ⟨col0.1, col1.1, col0.2, col1.2⟩

/-- Source `Matrix2d::det`. -/
def Matrix2d.det (m : Matrix2d) : ℚ :=
  m.x00 * m.x11 - m.x01 * m.x10

/-- Source `CoordsTranslationAdapter`, without the wrapped color function (the
coordinate and depth paths never consult it). -/
structure CoordsTranslationAdapter where
  triangle : Triangle3
  triangle_on_screen : Triangle
  basis_vecs : Vec3 × Vec3
  cramer_denom_recip : ℚ
  viewport : Viewport
  camera : CameraQ
deriving DecidableEq, Repr

/-- Source `CoordsTranslationAdapter::new`: precomputes the reciprocal of the basis
matrix determinant (`f64` `recip` of `0` is `inf`; the ℚ model returns `0`,
never reached by any input a claim touches). -/
def CoordsTranslationAdapter.new (triangle : Triangle3)
    (triangle_on_screen : Triangle) (basis_vecs : Vec3 × Vec3)
    (viewport : Viewport) (camera : CameraQ) : CoordsTranslationAdapter :=
  let u := basis_vecs.1
  let v := basis_vecs.2
  let basis_matrix_xy := Matrix2d.from_columns u.onto_xy v.onto_xy
  ⟨triangle, triangle_on_screen, basis_vecs, basis_matrix_xy.det⁻¹,
   viewport, camera⟩

/-- Source `CoordsTranslationAdapter::onto_screen_plane`: pixel → point on the
camera's screen plane. -/
def CoordsTranslationAdapter.onto_screen_plane (ad : CoordsTranslationAdapter)
    (p : Point) : Point3 :=
  ad.camera.onto_screen_plane (ad.viewport.untranslate p)

/-- Source `CoordsTranslationAdapter::linear_untranslate` (`none` = a panic inside
`Line3d::from_points`, `Plane::from_origin_and_vectors`, or the final
`unwrap`). -/
def CoordsTranslationAdapter.linear_untranslate (ad : CoordsTranslationAdapter)
    (p : Point) (a : Point × Point3) (b : Point × Point3) : Option Point3 := do
  let a2 := a.1
  let a3 := a.2
  let b2 := b.1
  let b3 := b.2
  let line ← Line3.from_points a3 b3
  let origin := ad.onto_screen_plane p
  let vec1 := (ad.onto_screen_plane ((b2.subp a2).perp.as_point)).as_vector
  let vec2 := origin.as_vector
  let plane ← Plane.try_from_origin_and_vectors origin vec1 vec2
  plane.intersect line

/-- Source `CoordsTranslationAdapter::bilinear_untranslate`: exact fast paths for
the three projected vertices, and otherwise two nested plane/line
intersections through the pivot on the screen edge `b–c`. -/
def CoordsTranslationAdapter.bilinear_untranslate (ad : CoordsTranslationAdapter)
    (point_on_screen : Point) : Option Point3 :=
  if point_on_screen = ad.triangle_on_screen.a then some ad.triangle.a
  else if point_on_screen = ad.triangle_on_screen.b then some ad.triangle.b
  else if point_on_screen = ad.triangle_on_screen.c then some ad.triangle.c
  else do
    let base_line ← Line.from_points ad.triangle_on_screen.b ad.triangle_on_screen.c
    let pivot_line ← Line.from_points ad.triangle_on_screen.a point_on_screen
    let pivot_point ← base_line.intersect pivot_line
    let pivot_point_3d ← ad.linear_untranslate pivot_point
      (ad.triangle_on_screen.b, ad.triangle.b)
      (ad.triangle_on_screen.c, ad.triangle.c)
    if point_on_screen = pivot_point then some pivot_point_3d
    else
      ad.linear_untranslate point_on_screen
        (ad.triangle_on_screen.a, ad.triangle.a) (pivot_point, pivot_point_3d)

/-- Source `CoordsTranslationAdapter::untranslate`: screen pixel → basis ("UV")
coordinate by Cramer's rule on the `xy` projections. -/
def CoordsTranslationAdapter.untranslate (ad : CoordsTranslationAdapter)
    (point_on_screen : Point) : Option (ℚ × ℚ) := do
  let projected_3d_point ← ad.bilinear_untranslate point_on_screen
  let s : ℚ × ℚ := (projected_3d_point.x, projected_3d_point.y)
  let p := ad.basis_vecs.1
  let q := ad.basis_vecs.2
  let det_no_u := (Matrix2d.from_columns s q.onto_xy).det
  let det_no_v := (Matrix2d.from_columns p.onto_xy s).det
  let u := det_no_u * ad.cramer_denom_recip
  let v := det_no_v * ad.cramer_denom_recip
  pure (u, v)

/-- Source `PointCoords for CoordsTranslationAdapter` (`coords_of`). -/
def CoordsTranslationAdapter.coords_of (ad : CoordsTranslationAdapter)
    (point_on_screen : Point) : Option Point3 :=
  ad.bilinear_untranslate point_on_screen

/-- The real-valued Euclidean norm of a rational 3D point
(`as_vector().norm()`). -/
noncomputable def Point3.normR (p : Point3) : ℝ :=
  Real.sqrt (((p.x ^ 2 + p.y ^ 2 + p.z ^ 2 : ℚ) : ℝ))

/-- The blanket `PointDepth` impl:
`depth_of(p) = coords_of(p).as_vector().norm()`. -/
noncomputable def CoordsTranslationAdapter.depth_of (ad : CoordsTranslationAdapter)
    (point_on_screen : Point) : Option ℝ :=
  (ad.coords_of point_on_screen).map Point3.normR

/-- The interface `DepthBufferProxy` needs from the filler it wraps
(`ColorFunc + PointCoords + PointDepth`): `depth_of` is `Option`-valued
because the adapter's coordinate recovery can panic. -/
structure InnerFiller (α : Type) where
  color_at : Point → Option RGB
  depth_of : Point → Option α

/-- Source `ColorFunc for DepthBufferProxy`, state-passing: the outer `none` models
a panic inside the wrapped `depth_of`; the `(f64 as f32)` narrowing of the
depth is idealized away. -/
def DepthBufferProxy.color_at {α : Type} [LT α]
    [DecidableRel ((· < ·) : α → α → Prop)]
    (inner : InnerFiller α) (db : DepthBuffer α) (point : Point) :
    Option (Option RGB × DepthBuffer α) :=
  match db.try_coords_from_point point with
  | none => some (none, db)
  | some (x, y) =>
    match inner.depth_of point with
    | none => none
    | some depth =>
      let r := db.try_update x y depth
      if r.1 then some (inner.color_at point, r.2) else some (none, r.2)

/-- Modelled from the spec: the "interpolated depth" C2 claims is passed to
the depth buffer — "linear blend of the triangle's three projected vertex
distances, weighted by the recovered basis coordinate": distances
`d1, d2, d3` of the vertices `a, b, c` blended with the recovered basis
coordinate `(u, v)` as weights. -/
def spec_blend (d1 d2 d3 u v : ℚ) : ℚ :=
  d1 * (1 - u - v) + d2 * u + d3 * v

/-- A concrete adapter used by counterexamples and witnesses: the 3D triangle
`(3,4,0), (0,5,12), (0,0,25)` (vertex distances `5, 13, 25`), its basis
vectors `b - a, c - a`, an arbitrary screen triangle and viewport. -/
def sample_adapter : CoordsTranslationAdapter :=
  CoordsTranslationAdapter.new
    ⟨⟨3, 4, 0⟩, ⟨0, 5, 12⟩, ⟨0, 0, 25⟩⟩
    ⟨⟨0, 0⟩, ⟨10, 0⟩, ⟨5, 10⟩⟩
    (⟨-3, 1, 12⟩, ⟨-3, -4, 25⟩)
    ⟨20, 20⟩
    ⟨1⟩

/-- A concrete wrapped filler over `ℚ` used by the C2 witness. -/
def sample_inner : InnerFiller ℚ :=
  ⟨fun _ => some ⟨1, 2, 3⟩, fun _ => some 5⟩

/-! ## Theorems -/

theorem mem_intRange {a b z : ℤ} : z ∈ intRange a b ↔ a ≤ z ∧ z ≤ b := by
  unfold intRange
  simp only [List.mem_map, List.mem_range]
  constructor
  · rintro ⟨i, hi, rfl⟩
    omega
  · rintro ⟨h1, h2⟩
    refine ⟨(z - a).toNat, by omega, by omega⟩

theorem from_points_of_ne_y {p q : Point} (h : p.y ≠ q.y) :
    ∃ l, Line.from_points p q = some l ∧ l.a ≠ 0 := by
  have hpq : p ≠ q := by
    intro he
    exact h (by rw [he])
  unfold Line.from_points
  rw [if_neg hpq]
  by_cases hx : p.x = q.x
  · rw [if_pos hx]
    exact ⟨⟨1, 0, -p.x⟩, rfl, one_ne_zero⟩
  · rw [if_neg hx]
    exact ⟨_, rfl, sub_ne_zero_of_ne h⟩

theorem horizontal_intersect (m : Line) (hm : m.a ≠ 0) (y : ℤ) :
    ∃ p : Point, (Line.horizontal y).intersect m = some p ∧ p.y = y := by
  unfold Line.intersect Line.horizontal
  dsimp only
  rw [if_neg (by intro h; apply hm; linarith)]
  refine ⟨_, rfl, ?_⟩
  show Int.tdiv (0 * m.c - -y * m.a) (1 * m.a - 0 * m.b) = y
  have h1 : 0 * m.c - -y * m.a = y * m.a := by ring
  have h2 : 1 * m.a - 0 * m.b = m.a := by ring
  rw [h1, h2, Int.mul_tdiv_cancel _ hm]

theorem rasterize_row_bounds (width : ℕ) {ll rl : Line}
    (hl : ll.a ≠ 0) (hr : rl.a ≠ 0) (y : ℤ) :
    ∃ pix, rasterize_row width ll rl y = some pix ∧
      ∀ p ∈ pix, 0 ≤ p.x ∧ p.x < (width : ℤ) ∧ p.y = y := by
  obtain ⟨pl, hpl, -⟩ := horizontal_intersect ll hl y
  obtain ⟨pr, hpr, -⟩ := horizontal_intersect rl hr y
  unfold rasterize_row
  rw [hpl, hpr]
  refine ⟨_, rfl, ?_⟩
  intro p hp
  simp only [List.mem_map] at hp
  obtain ⟨x, hx, rfl⟩ := hp
  rw [mem_intRange] at hx
  dsimp only
  refine ⟨by omega, by omega, rfl⟩

theorem rasterize_rows_bounds (width : ℕ) {ll rl : Line}
    (hl : ll.a ≠ 0) (hr : rl.a ≠ 0) (ys : List ℤ) :
    ∃ pix, rasterize_rows width ll rl ys = some pix ∧
      ∀ p ∈ pix, 0 ≤ p.x ∧ p.x < (width : ℤ) ∧ p.y ∈ ys := by
  induction ys with
  | nil => exact ⟨[], rfl, by simp⟩
  | cons y ys ih =>
    obtain ⟨pix, hpix, hb⟩ := ih
    obtain ⟨row, hrow, hrb⟩ := rasterize_row_bounds width hl hr y
    refine ⟨row ++ pix, ?_, ?_⟩
    · unfold rasterize_rows
      rw [hrow, hpix]
      rfl
    · intro p hp
      rcases List.mem_append.mp hp with h | h
      · obtain ⟨h1, h2, h3⟩ := hrb p h
        exact ⟨h1, h2, by rw [h3]; exact List.mem_cons_self y ys⟩
      · obtain ⟨h1, h2, h3⟩ := hb p h
        exact ⟨h1, h2, List.mem_cons_of_mem _ h3⟩

theorem fill_glued_triangle_bounds (width height : ℕ) (g : GluedTriangle)
    (h : g.free_point.y ≠ g.horizontal_segment.y) :
    ∃ pix, Rasterizer.fill_glued_triangle width height g = some pix ∧
      ∀ p ∈ pix, in_bounds width height p = true := by
  obtain ⟨ll, hll, hlla⟩ :=
    @from_points_of_ne_y g.horizontal_segment.left g.free_point
      (fun he => h he.symm)
  obtain ⟨rl, hrl, hrla⟩ :=
    @from_points_of_ne_y g.horizontal_segment.right g.free_point
      (fun he => h he.symm)
  obtain ⟨pix, hpix, hb⟩ := rasterize_rows_bounds width hlla hrla
    (intRange (max (if g.horizontal_segment.y > g.free_point.y
        then g.free_point.y else g.horizontal_segment.y) 0)
      (min (if g.horizontal_segment.y > g.free_point.y
        then g.horizontal_segment.y else g.free_point.y) ((height : ℤ) - 1)))
  refine ⟨pix, ?_, ?_⟩
  · unfold Rasterizer.fill_glued_triangle
    rw [hll, hrl]
    exact hpix
  · intro p hp
    obtain ⟨h1, h2, h3⟩ := hb p hp
    rw [mem_intRange] at h3
    unfold in_bounds
    simp only [decide_eq_true_eq]
    omega

theorem lies_on_iff {a b : Point} (h : a ≠ b) (s : Point) :
    Point.lies_on s a b = true ↔ cross a b s = 0 := by
  unfold Point.lies_on Line.from_points
  rw [if_neg h]
  by_cases hx : a.x = b.x
  · have hy : a.y ≠ b.y := by
      intro hy
      apply h
      cases a
      cases b
      simp_all
    rw [if_pos hx]
    unfold Line.contains_point cross
    dsimp only
    simp only [decide_eq_true_eq]
    have e1 : b.x - a.x = 0 := by omega
    constructor
    · intro he
      have e2 : s.x - a.x = 0 := by omega
      linear_combination (s.y - a.y) * e1 - (b.y - a.y) * e2
    · intro he
      have e2 : (s.x - a.x) * (b.y - a.y) = 0 := by
        linear_combination (s.y - a.y) * e1 - he
      rcases mul_eq_zero.mp e2 with h0 | h0
      · omega
      · exact absurd (by omega : a.y = b.y) hy
  · rw [if_neg hx]
    unfold Line.contains_point cross
    dsimp only
    simp only [decide_eq_true_eq]
    constructor
    · intro h0
      linear_combination h0
    · intro h0
      linear_combination h0

theorem cross_transpose₁ (p q r : Point) : cross q p r = -cross p q r := by
  unfold cross
  ring

theorem cross_transpose₂ (p q r : Point) : cross p r q = -cross p q r := by
  unfold cross
  ring

theorem cross_cyclic (p q r : Point) : cross q r p = cross p q r := by
  unfold cross
  ring

theorem triangle_valid_facts {t : Triangle} (h : t.valid) :
    (t.a ≠ t.b ∧ t.b ≠ t.c ∧ t.a ≠ t.c) ∧ cross t.a t.b t.c ≠ 0 := by
  unfold Triangle.valid Triangle.try_new at h
  by_cases h1 : t.a = t.b ∨ t.b = t.c ∨ t.a = t.c
  · rw [if_pos h1] at h
    exact absurd h (by simp)
  · rw [if_neg h1] at h
    push_neg at h1
    obtain ⟨hab, hbc, hac⟩ := h1
    by_cases h2 : (t.a.lies_on t.b t.c ∨ t.b.lies_on t.a t.c ∨ t.c.lies_on t.a t.b)
    · rw [if_pos (by simpa using h2)] at h
      exact absurd h (by simp)
    · refine ⟨⟨hab, hbc, hac⟩, ?_⟩
      push_neg at h2
      intro hz
      exact h2.2.2 ((lies_on_iff hab t.c).mpr hz)

theorem sort3_spec (key : Point → ℤ) (a b c : Point) :
    key (sort3 key a b c).1 ≤ key (sort3 key a b c).2.1 ∧
    key (sort3 key a b c).2.1 ≤ key (sort3 key a b c).2.2 ∧
    ((sort3 key a b c = (a, b, c)) ∨ (sort3 key a b c = (a, c, b)) ∨
     (sort3 key a b c = (b, a, c)) ∨ (sort3 key a b c = (b, c, a)) ∨
     (sort3 key a b c = (c, a, b)) ∨ (sort3 key a b c = (c, b, a))) := by
  unfold sort3
  dsimp only
  split_ifs <;> (try dsimp only at *) <;> refine ⟨by omega, by omega, by tauto⟩

theorem fill_sorted_bounds (width height : ℕ) (sa sb sc : Point)
    (_hsac : sa ≠ sc) (hyab : sa.y ≤ sb.y) (hybc : sb.y ≤ sc.y)
    (hcr : cross sa sc sb ≠ 0) :
    ∃ pix, fill_sorted width height sa sb sc = some pix ∧
      ∀ p ∈ pix, in_bounds width height p = true := by
  have hyac : sa.y ≠ sc.y := by
    intro hy
    apply hcr
    unfold cross
    have h1 : sb.y = sa.y := by omega
    rw [h1, hy]
    ring
  obtain ⟨line_ac, hline, hla⟩ := from_points_of_ne_y hyac
  obtain ⟨sp, hsp, hspy⟩ := horizontal_intersect line_ac hla sb.y
  have hhs : ∃ hs, HorizontalSegment.from_points sb sp = some hs := by
    unfold HorizontalSegment.from_points
    rw [if_pos hspy.symm]
    by_cases hx : sb.x > sp.x
    · rw [if_pos hx]
      exact ⟨_, rfl⟩
    · rw [if_neg hx]
      exact ⟨_, rfl⟩
  obtain ⟨hs, hhs⟩ := hhs
  have htop : ∃ top, fill_half width height hs sa = some top ∧
      ∀ p ∈ top, in_bounds width height p = true := by
    unfold fill_half
    cases hg : GluedTriangle.try_new hs sa with
    | none => exact ⟨[], rfl, by simp⟩
    | some g =>
      unfold GluedTriangle.try_new at hg
      by_cases hc : hs.as_line.contains_point sa = true
      · rw [if_pos hc] at hg
        exact absurd hg (by simp)
      · rw [if_neg hc] at hg
        have hgv : g = ⟨hs, sa⟩ := (Option.some.inj hg).symm
        have hyne : sa.y ≠ hs.y := by
          intro hy
          apply hc
          unfold HorizontalSegment.as_line Line.horizontal Line.contains_point
          simp only [decide_eq_true_eq]
          omega
        obtain ⟨pix, hpix, hb⟩ := fill_glued_triangle_bounds width height ⟨hs, sa⟩ hyne
        rw [hgv]
        exact ⟨pix, hpix, hb⟩
  have hbot : ∃ bottom, fill_half width height hs sc = some bottom ∧
      ∀ p ∈ bottom, in_bounds width height p = true := by
    unfold fill_half
    cases hg : GluedTriangle.try_new hs sc with
    | none => exact ⟨[], rfl, by simp⟩
    | some g =>
      unfold GluedTriangle.try_new at hg
      by_cases hc : hs.as_line.contains_point sc = true
      · rw [if_pos hc] at hg
        exact absurd hg (by simp)
      · rw [if_neg hc] at hg
        have hgv : g = ⟨hs, sc⟩ := (Option.some.inj hg).symm
        have hyne : sc.y ≠ hs.y := by
          intro hy
          apply hc
          unfold HorizontalSegment.as_line Line.horizontal Line.contains_point
          simp only [decide_eq_true_eq]
          omega
        obtain ⟨pix, hpix, hb⟩ := fill_glued_triangle_bounds width height ⟨hs, sc⟩ hyne
        rw [hgv]
        exact ⟨pix, hpix, hb⟩
  obtain ⟨top, htop, htb⟩ := htop
  obtain ⟨bottom, hbot, hbb⟩ := hbot
  refine ⟨top ++ bottom, ?_, ?_⟩
  · unfold fill_sorted
    simp only [hline, hsp, hhs, htop, hbot, Option.bind_eq_bind, Option.some_bind]
    rfl
  · intro p hp
    rcases List.mem_append.mp hp with h | h
    · exact htb p h
    · exact hbb p h

/-- C8: every pixel visited by `Rasterizer::fill_glued_triangle` (for any
non-degenerate glued triangle) and by `Rasterizer::fill_triangle` (for any
valid triangle) lies inside the `width × height` buffer — out-of-buffer rows
and columns are clamped away, and no step panics. -/
theorem c8_rasterizer_writes_in_bounds (width height : ℕ) :
    (∀ g : GluedTriangle, g.free_point.y ≠ g.horizontal_segment.y →
      all_in_bounds width height
        (Rasterizer.fill_glued_triangle width height g) = true) ∧
    (∀ t : Triangle, t.valid →
      all_in_bounds width height (Rasterizer.fill_triangle width height t) = true) := by
  constructor
  · intro g hg
    obtain ⟨pix, hpix, hb⟩ := fill_glued_triangle_bounds width height g hg
    rw [hpix]
    unfold all_in_bounds
    rw [List.all_eq_true]
    exact hb
  · intro t ht
    obtain ⟨⟨hab, hbc, hac⟩, hcr⟩ := triangle_valid_facts ht
    obtain ⟨hy1, hy2, hperm⟩ := sort3_spec (fun p => p.y) t.a t.b t.c
    have hmain : ∃ pix, Rasterizer.fill_triangle width height t = some pix ∧
        ∀ p ∈ pix, in_bounds width height p = true := by
      have e1 := cross_transpose₁ t.a t.b t.c
      have e2 := cross_transpose₂ t.a t.b t.c
      have e3 := cross_cyclic t.a t.b t.c
      have e4 := cross_cyclic t.b t.c t.a
      have e8 := cross_transpose₂ t.c t.a t.b
      unfold Rasterizer.fill_triangle Triangle.ysort
      rcases hperm with h | h | h | h | h | h
      · rw [h] at hy1 hy2 ⊢
        dsimp only at hy1 hy2 ⊢
        refine fill_sorted_bounds width height _ _ _ hac hy1 hy2 ?_
        intro hz
        exact hcr (by linarith [hz, e2])
      · rw [h] at hy1 hy2 ⊢
        dsimp only at hy1 hy2 ⊢
        exact fill_sorted_bounds width height _ _ _ hab hy1 hy2 hcr
      · rw [h] at hy1 hy2 ⊢
        dsimp only at hy1 hy2 ⊢
        refine fill_sorted_bounds width height _ _ _ hbc hy1 hy2 ?_
        intro hz
        exact hcr (by linarith [hz, e3])
      · rw [h] at hy1 hy2 ⊢
        dsimp only at hy1 hy2 ⊢
        refine fill_sorted_bounds width height _ _ _ (fun he => hab he.symm) hy1 hy2 ?_
        intro hz
        exact hcr (by linarith [hz, e1])
      · rw [h] at hy1 hy2 ⊢
        dsimp only at hy1 hy2 ⊢
        refine fill_sorted_bounds width height _ _ _ (fun he => hbc he.symm) hy1 hy2 ?_
        intro hz
        exact hcr (by linarith [hz, e8, e4, e3])
      · rw [h] at hy1 hy2 ⊢
        dsimp only at hy1 hy2 ⊢
        refine fill_sorted_bounds width height _ _ _ (fun he => hac he.symm) hy1 hy2 ?_
        intro hz
        exact hcr (by linarith [hz, e4, e3])
    obtain ⟨pix, hpix, hb⟩ := hmain
    rw [hpix]
    unfold all_in_bounds
    rw [List.all_eq_true]
    exact hb

/-- C8, witness: a concrete glued triangle sticking out of a `4 × 4` buffer
and the concrete triangle `(0,0),(10,0),(5,10)` in a `4 × 4` buffer. -/
theorem c8_rasterizer_writes_in_bounds_witness :
    all_in_bounds 4 4 (Rasterizer.fill_glued_triangle 4 4
      ⟨⟨⟨-2, 1⟩, 8⟩, ⟨3, 9⟩⟩) = true ∧
    all_in_bounds 4 4 (Rasterizer.fill_triangle 4 4
      ⟨⟨0, 0⟩, ⟨10, 0⟩, ⟨5, 10⟩⟩) = true :=
  ⟨(c8_rasterizer_writes_in_bounds 4 4).1 ⟨⟨⟨-2, 1⟩, 8⟩, ⟨3, 9⟩⟩ (by decide),
   (c8_rasterizer_writes_in_bounds 4 4).2 ⟨⟨0, 0⟩, ⟨10, 0⟩, ⟨5, 10⟩⟩ (by decide)⟩

/-- Reduction of `wrap32` on values already inside the `i32` range. -/
theorem wrap32_eq_self (n : ℤ) (h : n.natAbs < 2 ^ 31) : wrap32 n = n := by
  unfold wrap32
  omega

/-- C1, failing inputs: the clipper sorts the camera-adjusted vertices by `x`
in ascending order, but its branch classification assumes the descending
order of the source's own comments (`(a, b) - good, c - bad`), so it keeps
the wrong side of the boundary.

First conjunct block: the triangle with `x` coordinates `(-1, 1, 2)` straddles
the camera plane, yet `can_translate_segment(b, c)` only inspects the two
larger-`x` vertices and the triangle is emitted unchanged — including vertex
`a = (-1,0,0)` with `x = -1 ≤ 0`, which `Camera::can_translate_point` itself
rejects and on which `Camera::translate` panics.

Second conjunct block: the triangle with `x` coordinates `(-1, -1/2, 5)`
takes the splitting branch, and both emitted sub-triangles contain the
behind-camera vertex `a  = (-1,0,0)` (the second also contains
`b = (-1/2,1,0)`); the two boundary intersection vertices lie exactly on
`x = 0`, not strictly in front of it. -/
theorem c1_clipper_emits_untranslatable_vertices :
    split_if_necessary ⟨⟨-1, 0, 0⟩, ⟨1, 1, 0⟩, ⟨2, 0, 1⟩⟩
      = some (some ⟨⟨-1, 0, 0⟩, ⟨1, 1, 0⟩, ⟨2, 0, 1⟩⟩, none) ∧
    split_if_necessary ⟨⟨-1, 0, 0⟩, ⟨-1/2, 1, 0⟩, ⟨5, 0, 1⟩⟩
      = some (some ⟨⟨-1, 0, 0⟩, ⟨0, 0, 1/6⟩, ⟨0, 10/11, 1/11⟩⟩,
              some ⟨⟨-1, 0, 0⟩, ⟨-1/2, 1, 0⟩, ⟨0, 10/11, 1/11⟩⟩) ∧
    can_translate_point ⟨-1, 0, 0⟩ = false ∧
    ¬ (0 : ℚ) < (Point3.mk (-1) 0 0).x ∧
    ¬ (0 : ℚ) < (Point3.mk 0 0 (1/6)).x := by
  refine ⟨?_, ?_, ?_, ?_, ?_⟩
  · norm_num [split_if_necessary, Triangle3.xsort, sort3d,
      can_translate_segment, can_translate_point]
  · norm_num [split_if_necessary, Triangle3.xsort, sort3d,
      can_translate_segment, can_translate_point]
  · norm_num [can_translate_point]
  · norm_num
  · norm_num

/-- C3, counterexample: `Angle::from_radians` stores its argument unchanged —
`from_radians(10)` holds the radian value `10`, which lies in neither
`[-π, π]` nor `[0, 2π]`. -/
theorem c3_angle_radians_not_wrapped :
    (Angle.from_radians 10).as_radians = 10 ∧
    (((Angle.from_radians 10).as_radians : ℚ) : ℝ) ∉ Set.Icc (-Real.pi) Real.pi ∧
    (((Angle.from_radians 10).as_radians : ℚ) : ℝ) ∉ Set.Icc (0 : ℝ) (2 * Real.pi) := by
  have hpi : Real.pi < 3.15 := Real.pi_lt_d2
  have hcast : (((Angle.from_radians 10).as_radians : ℚ) : ℝ) = 10 := by
    norm_num [Angle.from_radians, Angle.as_radians]
  refine ⟨rfl, ?_, ?_⟩
  · rw [hcast, Set.mem_Icc]
    intro hmem
    nlinarith [hmem.2]
  · rw [hcast, Set.mem_Icc]
    intro hmem
    nlinarith [hmem.2]

/-- C3, amended: `Angle` stores raw radians with no wrapping or
normalization: `from_radians` stores exactly its argument, and addition,
subtraction, negation and scalar multiplication operate on the raw radian
values. -/
theorem c3_angle_ops_are_raw (r s k : ℚ) :
    (Angle.from_radians r).as_radians = r ∧
    (Angle.add (Angle.from_radians r) (Angle.from_radians s)).as_radians = r + s ∧
    (Angle.sub (Angle.from_radians r) (Angle.from_radians s)).as_radians = r - s ∧
    (Angle.neg (Angle.from_radians r)).as_radians = -r ∧
    (Angle.mul (Angle.from_radians r) k).as_radians = r * k :=
  ⟨rfl, rfl, rfl, rfl, rfl⟩

/-- C4, counterexample: for the distinct points `(0,0)` and `(1,0)` (same `y`
coordinate, horizontal line, `a` coefficient `0`), evaluating
`Line::from_points(p,q) == Line::from_points(q,p)` does not terminate without
error: the `PartialEq` implementation divides by `gcd(0,0) = 0`, an integer
division by zero, which panics. -/
theorem c4_horizontal_swap_eq_panics :
    from_points_swap_check ⟨0, 0⟩ ⟨1, 0⟩ = none ∧
    Line.from_points ⟨0, 0⟩ ⟨1, 0⟩ = some ⟨0, 1, 0⟩ ∧
    Line.from_points ⟨1, 0⟩ ⟨0, 0⟩ = some ⟨0, -1, 0⟩ ∧
    Line.eq ⟨0, 1, 0⟩ ⟨0, -1, 0⟩ = none := by
  refine ⟨?_, ?_, ?_, ?_⟩ <;> decide

/-- C4, amended: for all pairs of distinct integer points `p ≠ q`, except when
`p.y = q.y` with `p.x ≠ q.x` (a horizontal line, where the comparison divides
by `gcd(0,0) = 0` and panics), `Line::from_points(p,q) == Line::from_points(q,p)`
terminates and returns `true`. -/
theorem c4_from_points_swap_eq (p q : Point) (hpq : p ≠ q)
    (h : p.x = q.x ∨ p.y ≠ q.y) :
    from_points_swap_check p q = some true := by
  have hqp : q ≠ p := fun he => hpq he.symm
  unfold from_points_swap_check Line.from_points Line.eq
  rcases h with hx | hy
  · simp only [if_neg hpq, if_neg hqp, if_pos hx, if_pos hx.symm,
      Option.bind_eq_bind, Option.some_bind]
    have hga : (Int.gcd 1 1 : ℤ) = 1 := by decide
    rw [hga, if_neg (by decide : ¬ (1 : ℤ) = 0)]
    have h11 : Int.tdiv 1 1 = 1 := by decide
    rw [h11]
    simp only [Option.some.injEq, decide_eq_true_eq]
    refine ⟨trivial, trivial, by omega⟩
  · have hx2 : ¬ p.y - q.y = 0 := sub_ne_zero_of_ne hy
    by_cases hx : p.x = q.x
    · simp only [if_neg hpq, if_neg hqp, if_pos hx, if_pos hx.symm,
        Option.bind_eq_bind, Option.some_bind]
      have hga : (Int.gcd 1 1 : ℤ) = 1 := by decide
      rw [hga, if_neg (by decide : ¬ (1 : ℤ) = 0)]
      have h11 : Int.tdiv 1 1 = 1 := by decide
      rw [h11]
      simp only [Option.some.injEq, decide_eq_true_eq]
      exact ⟨trivial, trivial, by omega⟩
    · have hxq : ¬ q.x = p.x := fun he => hx he.symm
      simp only [if_neg hpq, if_neg hqp, if_neg hx, if_neg hxq,
        Option.bind_eq_bind, Option.some_bind]
      have habs : (q.y - p.y).natAbs = (p.y - q.y).natAbs := by omega
      have hga : (Int.gcd (p.y - q.y) (q.y - p.y) : ℤ) = (p.y - q.y).natAbs := by
        unfold Int.gcd
        rw [habs, Nat.gcd_self]
      rw [hga]
      have hne : ((p.y - q.y).natAbs : ℤ) ≠ 0 := by
        simpa using hx2
      rw [if_neg hne]
      simp only [Option.some.injEq, decide_eq_true_eq]
      have hneg : Int.tdiv (q.y - p.y) ((p.y - q.y).natAbs : ℤ)
          = -Int.tdiv (p.y - q.y) ((p.y - q.y).natAbs : ℤ) := by
        have he : q.y - p.y = -(p.y - q.y) := by ring
        rw [he, Int.neg_tdiv]
      rw [hneg]
      refine ⟨by ring, by ring, by ring⟩

/-- C4, witness for the amended theorem at the concrete distinct points
`(0,0)` and `(1,2)`. -/
theorem c4_from_points_swap_eq_witness :
    from_points_swap_check ⟨0, 0⟩ ⟨1, 2⟩ = some true :=
  c4_from_points_swap_eq ⟨0, 0⟩ ⟨1, 2⟩ (by decide) (Or.inr (by decide))

/-- C7, counterexample: `Line::intersect` performs its Cramer products in
plain `i32` arithmetic, with no widening to 64 bits.  The two non-parallel
lines through `(40000,0)`,`(0,40000)` and through `(0,0)`,`(3,1)` have the
exact Cramer/truncated-quotient intersection `(30000, 10000)` (the idealized
`Line.intersect` returns it), but the product `c1 * b2 = 4800000000` exceeds
`i32`, so the 32-bit computation returns `(3156, 10000)` (and debug builds
panic on the overflow). -/
theorem c7_intersect_overflows_32bit :
    Line.from_points ⟨40000, 0⟩ ⟨0, 40000⟩ = some ⟨-40000, -40000, 1600000000⟩ ∧
    Line.from_points ⟨0, 0⟩ ⟨3, 1⟩ = some ⟨-1, 3, 0⟩ ∧
    Line.intersect ⟨-40000, -40000, 1600000000⟩ ⟨-1, 3, 0⟩ = some ⟨30000, 10000⟩ ∧
    Line.intersect32 ⟨-40000, -40000, 1600000000⟩ ⟨-1, 3, 0⟩ = some ⟨3156, 10000⟩ ∧
    (⟨3156, 10000⟩ : Point) ≠ ⟨30000, 10000⟩ := by
  refine ⟨by decide, by decide, by decide, by decide, by decide⟩

/-- C7, amended: `Line::intersect` computes Cramer's rule entirely in 32-bit
integer arithmetic (no widening); whenever every intermediate product and
difference fits in the `i32` range the returned point equals the exact
truncated-quotient Cramer solution. -/
theorem c7_intersect32_exact_when_in_range (l m : Line)
    (h1 : (l.c * m.b).natAbs < 2 ^ 31) (h2 : (l.b * m.c).natAbs < 2 ^ 31)
    (h3 : (l.c * m.b - l.b * m.c).natAbs < 2 ^ 31)
    (h4 : (l.a * m.c).natAbs < 2 ^ 31) (h5 : (l.c * m.a).natAbs < 2 ^ 31)
    (h6 : (l.a * m.c - l.c * m.a).natAbs < 2 ^ 31)
    (h7 : (l.b * m.a).natAbs < 2 ^ 31) (h8 : (l.a * m.b).natAbs < 2 ^ 31)
    (h9 : (l.b * m.a - l.a * m.b).natAbs < 2 ^ 31)
    (hd : l.b * m.a - l.a * m.b ≠ 0) :
    Line.intersect32 l m
      = some ⟨Int.tdiv (l.c * m.b - l.b * m.c) (l.b * m.a - l.a * m.b),
              Int.tdiv (l.a * m.c - l.c * m.a) (l.b * m.a - l.a * m.b)⟩ ∧
    Line.intersect32 l m = Line.intersect l m := by
  have e1 : sub32 (mul32 l.c m.b) (mul32 l.b m.c) = l.c * m.b - l.b * m.c := by
    unfold sub32 mul32
    rw [wrap32_eq_self _ h1, wrap32_eq_self _ h2, wrap32_eq_self _ h3]
  have e2 : sub32 (mul32 l.a m.c) (mul32 l.c m.a) = l.a * m.c - l.c * m.a := by
    unfold sub32 mul32
    rw [wrap32_eq_self _ h4, wrap32_eq_self _ h5, wrap32_eq_self _ h6]
  have e3 : sub32 (mul32 l.b m.a) (mul32 l.a m.b) = l.b * m.a - l.a * m.b := by
    unfold sub32 mul32
    rw [wrap32_eq_self _ h7, wrap32_eq_self _ h8, wrap32_eq_self _ h9]
  have hq1 : (Int.tdiv (l.c * m.b - l.b * m.c) (l.b * m.a - l.a * m.b)).natAbs
      < 2 ^ 31 := by
    rw [Int.natAbs_tdiv]
    exact Nat.lt_of_le_of_lt (Nat.div_le_self _ _) h3
  have hq2 : (Int.tdiv (l.a * m.c - l.c * m.a) (l.b * m.a - l.a * m.b)).natAbs
      < 2 ^ 31 := by
    rw [Int.natAbs_tdiv]
    exact Nat.lt_of_le_of_lt (Nat.div_le_self _ _) h6
  constructor
  · unfold Line.intersect32
    rw [e1, e2, e3, if_neg hd, wrap32_eq_self _ hq1, wrap32_eq_self _ hq2]
  · unfold Line.intersect32 Line.intersect
    rw [e1, e2, e3, if_neg hd, if_neg hd, wrap32_eq_self _ hq1, wrap32_eq_self _ hq2]

theorem index_at_inj {α : Type} (db : DepthBuffer α) {x y x' y' : ℕ}
    (hx : x < db.width) (hx' : x' < db.width)
    (he : db.index_at x y = db.index_at x' y') : x = x' ∧ y = y' := by
  unfold DepthBuffer.index_at at he
  have hw : 0 < db.width := by omega
  have hmod : (y * db.width + x) % db.width = x := by
    rw [Nat.add_comm, Nat.add_mul_mod_self_right, Nat.mod_eq_of_lt hx]
  have hmod' : (y' * db.width + x') % db.width = x' := by
    rw [Nat.add_comm, Nat.add_mul_mod_self_right, Nat.mod_eq_of_lt hx']
  have hxx : x = x' := by rw [← hmod, ← hmod', he]
  refine ⟨hxx, ?_⟩
  have : y * db.width = y' * db.width := by omega
  exact Nat.eq_of_mul_eq_mul_right hw this

theorem index_at_lt {α : Type} (db : DepthBuffer α) {x y : ℕ} (hwf : db.wf)
    (hx : x < db.width) (hy : y < db.height) :
    db.index_at x y < db.depth_buffer.length := by
  unfold DepthBuffer.index_at
  rw [hwf]
  calc y * db.width + x < y * db.width + db.width := by omega
    _ = (y + 1) * db.width := by ring
    _ ≤ db.height * db.width := Nat.mul_le_mul_right _ (by omega)
    _ = db.width * db.height := Nat.mul_comm _ _

theorem try_update_fst {α : Type} [LT α]
    [DecidableRel ((· < ·) : α → α → Prop)]
    (db : DepthBuffer α) (x y : ℕ) (v : α) :
    (db.try_update x y v).1 = true ↔
      (x < db.width ∧ y < db.height ∧ lt_inf v (db.cell x y) = true) := by
  unfold DepthBuffer.try_update DepthBuffer.index_at_checked DepthBuffer.cell
  by_cases hin : x < db.width ∧ y < db.height
  · rw [if_pos hin]
    dsimp only
    by_cases hlt : lt_inf v (db.depth_buffer.getD (db.index_at x y) none) = true
    · rw [if_pos hlt]
      exact ⟨fun _ => ⟨hin.1, hin.2, hlt⟩, fun _ => rfl⟩
    · rw [if_neg hlt]
      constructor
      · intro he
        exact absurd he (by simp)
      · intro he
        exact absurd he.2.2 hlt
  · rw [if_neg hin]
    dsimp only
    constructor
    · intro he
      exact absurd he (by simp)
    · intro he
      exact absurd ⟨he.1, he.2.1⟩ hin

theorem try_update_false {α : Type} [LT α]
    [DecidableRel ((· < ·) : α → α → Prop)]
    (db : DepthBuffer α) (x y : ℕ) (v : α)
    (h : (db.try_update x y v).1 = false) : (db.try_update x y v).2 = db := by
  unfold DepthBuffer.try_update DepthBuffer.index_at_checked at h ⊢
  by_cases hin : x < db.width ∧ y < db.height
  · rw [if_pos hin] at h ⊢
    dsimp only at h ⊢
    by_cases hlt : lt_inf v (db.depth_buffer.getD (db.index_at x y) none) = true
    · rw [if_pos hlt] at h
      exact absurd h (by simp)
    · rw [if_neg hlt]
  · rw [if_neg hin]

theorem try_update_true {α : Type} [LT α]
    [DecidableRel ((· < ·) : α → α → Prop)]
    (db : DepthBuffer α) (x y : ℕ) (v : α)
    (h : (db.try_update x y v).1 = true) :
    (db.try_update x y v).2
      = ⟨db.depth_buffer.set (db.index_at x y) (some v), db.width, db.height⟩ := by
  unfold DepthBuffer.try_update DepthBuffer.index_at_checked at h ⊢
  by_cases hin : x < db.width ∧ y < db.height
  · rw [if_pos hin] at h ⊢
    dsimp only at h ⊢
    by_cases hlt : lt_inf v (db.depth_buffer.getD (db.index_at x y) none) = true
    · rw [if_pos hlt]
    · rw [if_neg hlt] at h
      exact absurd h (by simp)
  · rw [if_neg hin] at h
    exact absurd h (by simp)

theorem run_updates_all_succeed (x y : ℕ) :
    ∀ (vs : List ℚ) (db : DepthBuffer ℚ), db.wf → x < db.width → y < db.height →
      List.Chain' (fun p q => q < p) vs →
      (∀ v ∈ vs.head?, lt_inf v (db.cell x y) = true) →
      (db.run_updates x y vs).all id = true := by
  intro vs
  induction vs with
  | nil => intro db _ _ _ _ _; rfl
  | cons v vs ih =>
    intro db hwf hx hy hchain hfirst
    have hfirst1 : lt_inf v (db.cell x y) = true := hfirst v rfl
    have hsucc : (db.try_update x y v).1 = true :=
      (try_update_fst db x y v).mpr ⟨hx, hy, hfirst1⟩
    have hnext := try_update_true db x y v hsucc
    unfold DepthBuffer.run_updates
    dsimp only
    rw [List.all_cons]
    have h1 : id (db.try_update x y v).1 = true := by rw [hsucc]; rfl
    rw [h1, Bool.true_and]
    have hlen : db.index_at x y < db.depth_buffer.length := index_at_lt db hwf hx hy
    have hcell : (db.try_update x y v).2.cell x y = some v := by
      rw [hnext]
      unfold DepthBuffer.cell DepthBuffer.index_at
      dsimp only
      rw [List.getD_eq_getElem?_getD, List.getElem?_set_self]
      · rfl
      · simpa using hlen
    refine ih (db.try_update x y v).2 ?_ ?_ ?_ hchain.tail ?_
    · rw [hnext]
      unfold DepthBuffer.wf
      simp only [List.length_set]
      exact hwf
    · rw [hnext]
      exact hx
    · rw [hnext]
      exact hy
    · intro v' hv'
      cases vs with
      | nil => exact absurd hv' (by simp)
      | cons w ws =>
        have hv'w : v' = w := by
          have hthis := hv'
          simp only [List.head?_cons, Option.mem_def, Option.some.injEq] at hthis
          exact hthis.symm
        have hwv : w < v := (List.chain'_cons.mp hchain).1
        rw [hv'w, hcell]
        unfold lt_inf
        simpa using hwv

/-- C5: `DepthBuffer::try_update(x, y, value)` returns `true` and stores
`value` exactly when `(x, y)` is inside the `width × height` grid and `value`
is strictly below the stored cell (initially `+∞`); in every other case —
including every out-of-bounds coordinate — it returns `false` and leaves the
buffer unchanged.  Consequently a strictly decreasing sequence of in-bounds
calls at one coordinate all succeed, and a call with `value ≥` the stored
value fails. -/
theorem c5_try_update_spec (db : DepthBuffer ℚ) (x y : ℕ) (v : ℚ)
    (hwf : db.wf) :
    ((db.try_update x y v).1 = true ↔
      (x < db.width ∧ y < db.height ∧ lt_inf v (db.cell x y) = true)) ∧
    ((db.try_update x y v).1 = false → (db.try_update x y v).2 = db) ∧
    ((db.try_update x y v).1 = true →
      (db.try_update x y v).2.cell x y = some v ∧
      (db.try_update x y v).2.width = db.width ∧
      (db.try_update x y v).2.height = db.height ∧
      (db.try_update x y v).2.wf ∧
      (∀ x' y', x' < db.width → y' < db.height → (x', y') ≠ (x, y) →
        (db.try_update x y v).2.cell x' y' = db.cell x' y')) ∧
    (∀ w, db.cell x y = some w → ¬ v < w → (db.try_update x y v).1 = false) ∧
    (∀ vs : List ℚ, x < db.width → y < db.height →
      List.Chain' (fun p q => q < p) (v :: vs) →
      lt_inf v (db.cell x y) = true →
      (db.run_updates x y (v :: vs)).all id = true) := by
  refine ⟨try_update_fst db x y v, try_update_false db x y v, ?_, ?_, ?_⟩
  · intro h
    have hin := (try_update_fst db x y v).mp h
    have hnext := try_update_true db x y v h
    have hlen : db.index_at x y < db.depth_buffer.length :=
      index_at_lt db hwf hin.1 hin.2.1
    refine ⟨?_, by rw [hnext], by rw [hnext], ?_, ?_⟩
    · rw [hnext]
      unfold DepthBuffer.cell DepthBuffer.index_at
      dsimp only
      rw [List.getD_eq_getElem?_getD, List.getElem?_set_self]
      · rfl
      · simpa using hlen
    · rw [hnext]
      unfold DepthBuffer.wf
      simp only [List.length_set]
      exact hwf
    · intro x' y' hx' hy' hne
      have hidx : db.index_at x y ≠ db.index_at x' y' := by
        intro he
        obtain ⟨he1, he2⟩ := index_at_inj db hin.1 hx' he
        exact hne (by rw [he1, he2])
      rw [hnext]
      unfold DepthBuffer.cell DepthBuffer.index_at
      unfold DepthBuffer.index_at at hidx
      dsimp only at hidx ⊢
      rw [List.getD_eq_getElem?_getD, List.getElem?_set_ne hidx,
        ← List.getD_eq_getElem?_getD]
  · intro w hcell hnlt
    cases hr : (db.try_update x y v).1 with
    | false => rfl
    | true =>
      have hin := (try_update_fst db x y v).mp hr
      rw [hcell] at hin
      exact absurd (by simpa [lt_inf] using hin.2.2) hnlt
  · intro vs hx hy hchain hfirst
    refine run_updates_all_succeed x y (v :: vs) db hwf hx hy hchain ?_
    intro v' hv'
    have hv'v : v' = v := by
      have hthis := hv'
      simp only [List.head?_cons, Option.mem_def, Option.some.injEq] at hthis
      exact hthis.symm
    rw [hv'v]
    exact hfirst

/-- C5, witness: a fresh `2 × 1` buffer at `(0,0)` with value `3`. -/
theorem c5_try_update_spec_witness :
    ((DepthBuffer.new ℚ 2 1).try_update 0 0 3).1 = true ↔
      (0 < (DepthBuffer.new ℚ 2 1).width ∧ 0 < (DepthBuffer.new ℚ 2 1).height ∧
       lt_inf 3 ((DepthBuffer.new ℚ 2 1).cell 0 0) = true) :=
  (c5_try_update_spec (DepthBuffer.new ℚ 2 1) 0 0 3 rfl).1

/-- C6: `Camera::translate` fails fatally (panics) exactly when the
camera-local `x` coordinate of the adjusted point is `≤ 0`; for every point
with `x > 0` it returns a screen coordinate and the point's distance (the
vector norm) without failing. -/
theorem c6_translate_panics_iff_behind (cam : CameraR) (p : Point3R) :
    (cam.translate p = none ↔ p.x ≤ 0) ∧
    (0 < p.x → cam.translate p = some (cam.screen_coord p, norm3R p)) := by
  unfold CameraR.translate
  by_cases h : p.x ≤ 0
  · rw [if_pos h]
    exact ⟨⟨fun _ => h, fun _ => rfl⟩, fun hx => absurd h (by linarith)⟩
  · rw [if_neg h]
    exact ⟨⟨fun he => absurd he (by simp), fun hle => absurd hle h⟩, fun _ => rfl⟩

/-- C6, witness at the in-front point `(1, 0, 0)`. -/
theorem c6_translate_panics_iff_behind_witness :
    CameraR.translate ⟨1, 1⟩ ⟨1, 0, 0⟩
      = some (CameraR.screen_coord ⟨1, 1⟩ ⟨1, 0, 0⟩, norm3R ⟨1, 0, 0⟩) :=
  (c6_translate_panics_iff_behind ⟨1, 1⟩ ⟨1, 0, 0⟩).2 (by norm_num)

theorem try_update_stores {α : Type} [LT α]
    [DecidableRel ((· < ·) : α → α → Prop)]
    (db : DepthBuffer α) (x y : ℕ) (v : α) (hwf : db.wf)
    (h : (db.try_update x y v).1 = true) :
    (db.try_update x y v).2.cell x y = some v := by
  have hin := (try_update_fst db x y v).mp h
  have hnext := try_update_true db x y v h
  have hlen : db.index_at x y < db.depth_buffer.length :=
    index_at_lt db hwf hin.1 hin.2.1
  rw [hnext]
  unfold DepthBuffer.cell DepthBuffer.index_at
  dsimp only
  rw [List.getD_eq_getElem?_getD, List.getElem?_set_self]
  · rfl
  · simpa using hlen

/-- C2, amended: the depth value the depth-test decorator hands to
`DepthBuffer::try_update` is the wrapped filler's `depth_of` — which, for the
coordinate-recovery adapter, is the Euclidean norm of the 3D point recovered
by `bilinear_untranslate` — not a blend of the triangle's three projected
vertex distances. -/
theorem c2_depth_passed_is_recovered_norm {α : Type} [LT α]
    [DecidableRel ((· < ·) : α → α → Prop)]
    (inner : InnerFiller α) (db : DepthBuffer α) (point : Point)
    (x y : ℕ) (d : α) (hwf : db.wf)
    (hxy : db.try_coords_from_point point = some (x, y))
    (hd : inner.depth_of point = some d)
    (hsucc : (db.try_update x y d).1 = true) :
    (DepthBufferProxy.color_at inner db point
        = some (inner.color_at point, (db.try_update x y d).2) ∧
      (db.try_update x y d).2.cell x y = some d) ∧
    (∀ ad : CoordsTranslationAdapter, ∀ q : Point,
      ad.depth_of q = (ad.bilinear_untranslate q).map Point3.normR) := by
  refine ⟨⟨?_, try_update_stores db x y d hwf hsucc⟩, fun ad q => rfl⟩
  unfold DepthBufferProxy.color_at
  rw [hxy]
  dsimp only
  rw [hd]
  dsimp only
  rw [if_pos hsucc]

/-- C2, witness for the amended theorem: a fresh `1 × 1` buffer, pixel
`(0,0)`, a wrapped filler of constant depth `5`. -/
theorem c2_depth_passed_is_recovered_norm_witness :
    DepthBufferProxy.color_at sample_inner (DepthBuffer.new ℚ 1 1) ⟨0, 0⟩
        = some (sample_inner.color_at ⟨0, 0⟩,
                ((DepthBuffer.new ℚ 1 1).try_update 0 0 5).2) ∧
    ((DepthBuffer.new ℚ 1 1).try_update 0 0 5).2.cell 0 0 = some 5 :=
  (c2_depth_passed_is_recovered_norm sample_inner (DepthBuffer.new ℚ 1 1)
    ⟨0, 0⟩ 0 0 5 rfl (by decide) rfl (by decide)).1

/-- C2, counterexample: at the pixel equal to the projected vertex `a` of the
`sample_adapter` triangle (vertex distances `5, 13, 25`), the depth handed to
the buffer is the recovered point's norm `5`, while the spec's blend of the
three vertex distances weighted by the recovered basis coordinate `(0, -1)`
is `-15 ≠ 5`. -/
theorem c2_depth_is_not_vertex_distance_blend :
    sample_adapter.bilinear_untranslate ⟨0, 0⟩ = some ⟨3, 4, 0⟩ ∧
    sample_adapter.untranslate ⟨0, 0⟩ = some (0, -1) ∧
    sample_adapter.depth_of ⟨0, 0⟩ = some (Point3.normR ⟨3, 4, 0⟩) ∧
    Point3.normR ⟨3, 4, 0⟩ = 5 ∧
    Point3.normR ⟨0, 5, 12⟩ = 13 ∧
    Point3.normR ⟨0, 0, 25⟩ = 25 ∧
    spec_blend 5 13 25 0 (-1) = -15 ∧
    Point3.normR ⟨3, 4, 0⟩ ≠ ((spec_blend 5 13 25 0 (-1) : ℚ) : ℝ) := by
  have hb : sample_adapter.bilinear_untranslate ⟨0, 0⟩ = some ⟨3, 4, 0⟩ := by
    norm_num [sample_adapter, CoordsTranslationAdapter.new,
      CoordsTranslationAdapter.bilinear_untranslate]
  have hn1 : Point3.normR ⟨3, 4, 0⟩ = 5 := by
    unfold Point3.normR
    rw [show (((3 : ℚ) ^ 2 + 4 ^ 2 + 0 ^ 2 : ℚ) : ℝ) = 5 ^ 2 by norm_num]
    exact Real.sqrt_sq (by norm_num)
  have hn2 : Point3.normR ⟨0, 5, 12⟩ = 13 := by
    unfold Point3.normR
    rw [show (((0 : ℚ) ^ 2 + 5 ^ 2 + 12 ^ 2 : ℚ) : ℝ) = 13 ^ 2 by norm_num]
    exact Real.sqrt_sq (by norm_num)
  have hn3 : Point3.normR ⟨0, 0, 25⟩ = 25 := by
    unfold Point3.normR
    rw [show (((0 : ℚ) ^ 2 + 0 ^ 2 + 25 ^ 2 : ℚ) : ℝ) = 25 ^ 2 by norm_num]
    exact Real.sqrt_sq (by norm_num)
  refine ⟨hb, ?_, ?_, hn1, hn2, hn3, by norm_num [spec_blend], ?_⟩
  · norm_num [sample_adapter, CoordsTranslationAdapter.new,
      CoordsTranslationAdapter.untranslate,
      CoordsTranslationAdapter.bilinear_untranslate,
      Matrix2d.from_columns, Matrix2d.det, Vec3.onto_xy]
  · unfold CoordsTranslationAdapter.depth_of CoordsTranslationAdapter.coords_of
    rw [hb]
    rfl
  · rw [hn1, show spec_blend 5 13 25 0 (-1) = -15 by norm_num [spec_blend]]
    norm_num

/-- C10: a screen pixel exactly equal to one of the triangle's projected
vertices recovers that vertex's original 3D coordinate exactly and without
error (the fast paths of `bilinear_untranslate`), for any adapter whose
screen triangle has distinct vertices. -/
theorem c10_vertex_pixel_recovers_exactly (ad : CoordsTranslationAdapter)
    (p : Point) :
    (p = ad.triangle_on_screen.a →
      ad.bilinear_untranslate p = some ad.triangle.a) ∧
    (p = ad.triangle_on_screen.b →
      ad.triangle_on_screen.a ≠ ad.triangle_on_screen.b →
      ad.bilinear_untranslate p = some ad.triangle.b) ∧
    (p = ad.triangle_on_screen.c →
      ad.triangle_on_screen.a ≠ ad.triangle_on_screen.c →
      ad.triangle_on_screen.b ≠ ad.triangle_on_screen.c →
      ad.bilinear_untranslate p = some ad.triangle.c) := by
  unfold CoordsTranslationAdapter.bilinear_untranslate
  refine ⟨?_, ?_, ?_⟩
  · intro h
    rw [if_pos h]
  · intro h hne
    rw [if_neg (by rw [h]; exact fun he => hne he.symm), if_pos h]
  · intro h hne1 hne2
    rw [if_neg (by rw [h]; exact fun he => hne1 he.symm),
        if_neg (by rw [h]; exact fun he => hne2 he.symm), if_pos h]

/-- C10, witness: the pixel `(0,0)` is the screen vertex `a` of
`sample_adapter`, and recovery returns the 3D vertex `a = (3,4,0)` exactly. -/
theorem c10_vertex_pixel_recovers_exactly_witness :
    sample_adapter.bilinear_untranslate ⟨0, 0⟩ = some sample_adapter.triangle.a :=
  (c10_vertex_pixel_recovers_exactly sample_adapter ⟨0, 0⟩).1 rfl

/-- C9: rasterizing the triangle `(0,0),(10,0),(5,10)` and the same triangle
with permuted vertices `(5,10),(0,0),(10,0)` visits identical pixel lists, for
every buffer size: `ysort` maps both to the same sorted vertex triple, after
which the scan conversion is the same computation. -/
theorem c9_fill_triangle_vertex_order_independent (width height : ℕ) :
    Rasterizer.fill_triangle width height ⟨⟨0, 0⟩, ⟨10, 0⟩, ⟨5, 10⟩⟩
      = Rasterizer.fill_triangle width height ⟨⟨5, 10⟩, ⟨0, 0⟩, ⟨10, 0⟩⟩ := by
  unfold Rasterizer.fill_triangle
  rw [(by decide : Triangle.ysort ⟨⟨0, 0⟩, ⟨10, 0⟩, ⟨5, 10⟩⟩
        = Triangle.ysort ⟨⟨5, 10⟩, ⟨0, 0⟩, ⟨10, 0⟩⟩)]

/-- C7, witness for the amended theorem: two small concrete non-parallel lines
(the axes) where every intermediate fits in `i32`. -/
theorem c7_intersect32_exact_witness :
    Line.intersect32 ⟨0, 1, 0⟩ ⟨1, 0, 0⟩
      = some ⟨Int.tdiv ((0 : ℤ) * 0 - 1 * 0) ((1 : ℤ) * 1 - 0 * 0),
              Int.tdiv ((0 : ℤ) * 0 - 0 * 1) ((1 : ℤ) * 1 - 0 * 0)⟩ :=
  (c7_intersect32_exact_when_in_range ⟨0, 1, 0⟩ ⟨1, 0, 0⟩
    (by decide) (by decide) (by decide) (by decide) (by decide)
    (by decide) (by decide) (by decide) (by decide) (by decide)).1

end Cuboid

